import Mathlib

/-
Verification of the heading-detection and outline pipeline in
adobe_challenge1a/pdf_outline_extractor.py.

Modelling conventions:
  * Python strings are modelled as Lean String / List Char; character
    classes (digits, upper, lower, whitespace) follow the ASCII reading,
    which is what the documents the program handles contain.
  * Python float font sizes are modelled as rationals; the program only
    compares sizes and takes means, so rational arithmetic is faithful.
  * The regular expressions used by the source are each hand-translated
    into an explicit matcher on character lists; every matcher is named
    after the regex it embeds.
  * sklearn KMeans (invoked with a fixed random_state) is modelled as an
    explicit labelling-function parameter of the classifier: with a fixed
    seed the labelling is a function of the inputs alone.  The try/except
    around the clustering branch is modelled by a validity check on the
    returned labels (the exact situations where CPython would raise:
    a label list of the wrong length, or a label outside range(n));
    an invalid labelling falls back to the simple classifier exactly as
    the except-branch does.
  * np.mean of an empty cluster yields NaN in Python; here rational
    division by zero yields 0.  No theorem below depends on an empty
    cluster, so the divergence is unreachable in every statement proved.
-/

/-! ## Python string primitives -/

/-- Python whitespace (the characters stripped by str.strip and matched by
the regex class backslash-s, ASCII range). -/
def wsChar (c : Char) : Bool :=
  c = ' ' || c = '\t' || c = '\n' || c = '\r' || c = '\x0b' || c = '\x0c'

/-- Remove a trailing run of whitespace characters. -/
def dropTrailingWs : List Char → List Char
  | [] => []
  | c :: t =>
    let r := dropTrailingWs t
    if r.isEmpty then (if wsChar c then [] else [c]) else c :: r

/-- Python str.strip(): remove leading and trailing whitespace. -/
def pyStrip (cs : List Char) : List Char :=
  dropTrailingWs (cs.dropWhile wsChar)

/-- Python str.lower(), ASCII. -/
def pyLower (cs : List Char) : List Char :=
  cs.map Char.toLower

/-- Does the needle occur as a prefix of the haystack (character lists). -/
def listStartsWith : List Char → List Char → Bool
  | [], _ => true
  | _ :: _, [] => false
  | a :: as, b :: bs => a = b && listStartsWith as bs

/-- Python substring containment, needle occurs somewhere in the haystack
(the operator `in` on strings). -/
def listInfixOf (needle : List Char) : List Char → Bool
  | [] => listStartsWith needle []
  | c :: t => listStartsWith needle (c :: t) || listInfixOf needle t

/-- Substring test with a String needle. -/
def pyIn (needle : String) (hay : List Char) : Bool :=
  listInfixOf needle.data hay

/-- Python str.isupper(): at least one cased character and no lowercase
character (ASCII cased characters). -/
def pyIsUpper (cs : List Char) : Bool :=
  cs.any (fun c => c.isUpper || c.isLower) && cs.all (fun c => !c.isLower)

/-- Python str.split() with no separator: the maximal runs of
non-whitespace characters. -/
def pyWords (cs : List Char) : List (List Char) :=
  (List.splitOnP wsChar cs).filter (fun w => !w.isEmpty)

/-- Python text.split(chr 10): segments between newline characters. -/
def splitOnNl (cs : List Char) : List (List Char) :=
  List.splitOnP (fun c => c = '\n') cs

/-- Join word fragments with single spaces (Python str.join with a space). -/
def joinWords (ws : List (List Char)) : List Char :=
  List.intercalate [' '] ws

/-- Python string comparison: lexicographic by code point, a proper
prefix sorting before its extensions. -/
def listLexLe : List Char → List Char → Bool
  | [], _ => true
  | _ :: _, [] => false
  | a :: as, b :: bs => if a = b then listLexLe as bs else decide (a < b)

/-- Python string less-or-equal lifted to String. -/
def strLe (a b : String) : Bool :=
  listLexLe a.data b.data

/-- Totality of the Python string order (stated as a definition so the
order instances below, themselves definitions, can use it). -/
def listLexLe_total_pf : ∀ as bs, listLexLe as bs = true ∨ listLexLe bs as = true
  | [], _ => Or.inl rfl
  | _ :: _, [] => Or.inr rfl
  | a :: as, b :: bs => by
    by_cases hab : a = b
    · subst hab
      rcases listLexLe_total_pf as bs with h | h
      · left
        simpa [listLexLe] using h
      · right
        simpa [listLexLe] using h
    · rcases lt_or_gt_of_ne hab with h | h
      · left
        simp [listLexLe, hab, h]
      · right
        simp [listLexLe, Ne.symm hab, h]

/-- Transitivity of the Python string order (a definition for the same
reason as totality). -/
def listLexLe_trans_pf :
    ∀ as bs cs, listLexLe as bs = true → listLexLe bs cs = true → listLexLe as cs = true
  | [], _, _, _, _ => rfl
  | _ :: _, [], _, h1, _ => by simp [listLexLe] at h1
  | _ :: _, _ :: _, [], _, h2 => by simp [listLexLe] at h2
  | a :: as, b :: bs, c :: cs, h1, h2 => by
    by_cases hab : a = b
    · subst hab
      by_cases hac : a = c
      · subst hac
        simp only [listLexLe, if_pos rfl] at h1 h2 ⊢
        exact listLexLe_trans_pf as bs cs h1 h2
      · simp only [listLexLe, if_neg hac] at h2 ⊢
        exact h2
    · simp only [listLexLe, if_neg hab, decide_eq_true_eq] at h1
      by_cases hbc : b = c
      · subst hbc
        simp only [listLexLe, if_neg hab, decide_eq_true_eq]
        exact h1
      · simp only [listLexLe, if_neg hbc, decide_eq_true_eq] at h2
        have hac : a < c := lt_trans h1 h2
        simp only [listLexLe, if_neg (ne_of_lt hac), decide_eq_true_eq]
        exact hac

/-- Fuel-driven worker for `collapseWs`; the fuel is an upper bound on the
input length, and every step consumes at least one character. -/
def collapseWsAux : Nat → List Char → List Char
  | _, [] => []
  | 0, _ => []
  | fuel + 1, c :: rest =>
    if wsChar c then ' ' :: collapseWsAux fuel (rest.dropWhile wsChar)
    else c :: collapseWsAux fuel rest

/-- The substitution re.sub of one-or-more whitespace by a single space. -/
def collapseWs (cs : List Char) : List Char :=
  collapseWsAux cs.length cs

/-! ## Regex matchers

Each matcher embeds one regular expression of the source.  All the
patterns below are deterministic for a backtracking engine (after a
greedy character-class run the following literal cannot be recovered by
giving characters back), so plain greedy scanning is faithful. -/

/-- Consume a literal character sequence, returning the rest. -/
def eatLiteral : List Char → List Char → Option (List Char)
  | [], cs => some cs
  | _ :: _, [] => none
  | a :: as, c :: cs => if c = a then eatLiteral as cs else none

/-- Consume one-or-more digits (greedy), returning the rest. -/
def eatDigits1 : List Char → Option (List Char)
  | c :: r => if c.isDigit then some (r.dropWhile Char.isDigit) else none
  | [] => none

/-- Consume one literal character, returning the rest. -/
def eatChar (a : Char) : List Char → Option (List Char)
  | c :: r => if c = a then some r else none
  | [] => none

/-- Does the remainder start with a digit. -/
def startsDigit : List Char → Bool
  | c :: _ => c.isDigit
  | [] => false

/-- Match backslash-s one-or-more followed by a character of class p. -/
def eatWsThen (p : Char → Bool) : List Char → Bool
  | c :: r =>
    wsChar c &&
      (match r.dropWhile wsChar with
       | d :: _ => p d
       | [] => false)
  | [] => false

/-- Regex digits-dot (the stem shared by several patterns): one-or-more
digits then a literal dot, returning the rest. -/
def eatNumDot (cs : List Char) : Option (List Char) :=
  (eatDigits1 cs).bind (eatChar '.')

/-- Regex `^\d+\.\s*c` where c is a character of class p. -/
def matchNumDot (p : Char → Bool) (cs : List Char) : Bool :=
  match eatNumDot cs with
  | some r =>
    match r.dropWhile wsChar with
    | c :: _ => p c
    | [] => false
  | none => false

/-- Regex `^\d+\.\s+c` where c is a character of class p. -/
def matchNumDotWs (p : Char → Bool) (cs : List Char) : Bool :=
  match eatNumDot cs with
  | some r => eatWsThen p r
  | none => false

/-- Regex `^\d+\.\d+`. -/
def matchTwoLevel (cs : List Char) : Bool :=
  match eatNumDot cs with
  | some r => startsDigit r
  | none => false

/-- Regex `^\d+\.\d+\s+[A-Z]`. -/
def matchTwoLevelWsUpper (cs : List Char) : Bool :=
  match (eatNumDot cs).bind eatNumDot with
  | some r => eatWsThen Char.isUpper r
  | none => false

/-- Regex `^\d+\.\d+\.\d+`. -/
def matchThreeLevel (cs : List Char) : Bool :=
  match (eatNumDot cs).bind eatNumDot with
  | some r => startsDigit r
  | none => false

/-- Regex `^\d+\.\d+\.\d+\s+[A-Z]`. -/
def matchThreeLevelWsUpper (cs : List Char) : Bool :=
  match ((eatNumDot cs).bind eatNumDot).bind eatNumDot with
  | some r => eatWsThen Char.isUpper r
  | none => false

/-- Regex `^[A-Z][A-Z\s]+$` (an all-caps run spanning the whole line). -/
def matchAllCapsFull : List Char → Bool
  | c :: rest =>
    c.isUpper && !rest.isEmpty && rest.all (fun x => x.isUpper || wsChar x)
  | [] => false

/-- Consume `[A-Z][a-z]+` (greedy), returning the rest. -/
def eatCapWord : List Char → Option (List Char)
  | c :: c2 :: rest =>
    if c.isUpper && c2.isLower then some (rest.dropWhile Char.isLower) else none
  | _ => none

/-- Fuel-driven tail of the Title Case regex: `(\s+[A-Z][a-z]+)*$`. -/
def titleCaseTail : Nat → List Char → Bool
  | _, [] => true
  | 0, _ :: _ => false
  | fuel + 1, c :: rest =>
    wsChar c &&
      (match eatCapWord (rest.dropWhile wsChar) with
       | some r => titleCaseTail fuel r
       | none => false)

/-- Regex `^[A-Z][a-z]+(\s+[A-Z][a-z]+)*$` (Title Case full match). -/
def matchTitleCase (cs : List Char) : Bool :=
  match eatCapWord cs with
  | some r => titleCaseTail cs.length r
  | none => false

/-- Regex `^w\s+c` for a literal word w and a character class p
(covers the Chapter, Section and Appendix patterns). -/
def matchWordThen (w : String) (p : Char → Bool) (cs : List Char) : Bool :=
  match eatLiteral w.data cs with
  | some r => eatWsThen p r
  | none => false

/-- The substitution re.sub of `\.{2,}.*$` by the empty string: cut the
line at the first occurrence of two consecutive dots. -/
def dropDoubleDots : List Char → List Char
  | [] => []
  | c :: rest =>
    if c = '.' && (match rest with | '.' :: _ => true | _ => false) then []
    else c :: dropDoubleDots rest

/-- The substitution re.sub of `^\d+\.\s*` by the empty string. -/
def stripNumberingLead (cs : List Char) : List Char :=
  match cs with
  | c :: _ =>
    if c.isDigit then
      match cs.dropWhile Char.isDigit with
      | '.' :: r => r.dropWhile wsChar
      | _ => cs
    else cs
  | [] => cs

/-- The substitution re.sub of `^[A-Z\s]+:\s*` by the empty string: the
greedy class run must be followed immediately by a colon, else no match. -/
def stripCapsLabel (cs : List Char) : List Char :=
  let run := cs.takeWhile (fun c => c.isUpper || wsChar c)
  if run.isEmpty then cs
  else
    match cs.dropWhile (fun c => c.isUpper || wsChar c) with
    | ':' :: r => r.dropWhile wsChar
    | _ => cs

/-- Regex `page \d+ of \d+` anchored at the current position. -/
def matchPageOf (cs : List Char) : Bool :=
  match eatLiteral "page ".data cs with
  | some r =>
    match eatDigits1 r with
    | some r2 =>
      match eatLiteral " of ".data r2 with
      | some r3 => (eatDigits1 r3).isSome
      | none => false
    | none => false
  | none => false

/-- Regex `version \d+` anchored at the current position. -/
def matchVersionNum (cs : List Char) : Bool :=
  match eatLiteral "version ".data cs with
  | some r => (eatDigits1 r).isSome
  | none => false

/-- Python re.search: try the anchored matcher at every start position. -/
def searchAnywhere (m : List Char → Bool) : List Char → Bool
  | [] => m []
  | c :: t => m (c :: t) || searchAnywhere m t

/-! ## Data model -/

/-- An apostrophe character, kept out of string literals. -/
def apoC : Char := Char.ofNat 39

/-- A one-character string holding an apostrophe. -/
def apoS : String := String.mk [apoC]

/-- One word of a page as delivered by the parsing facility. -/
structure Word where
  text : String
  size : ℚ
  fontname : String
deriving DecidableEq

/-- One page: its extracted text and its extracted words. -/
structure Page where
  text : String
  words : List Word
deriving DecidableEq

/-- A parsed document. -/
structure PDFDoc where
  pages : List Page
deriving DecidableEq

/-- A heading with its properties (the dataclass of the source). -/
structure Heading where
  text : String
  level : String
  page : Nat
  font_size : ℚ
  font_name : String
  bbox : ℚ × ℚ × ℚ × ℚ
deriving DecidableEq

/-- One outline record of the output structure. -/
structure OutlineEntry where
  level : String
  text : String
  page : Nat
deriving DecidableEq

/-- The result record: title plus outline. -/
structure OutlineResult where
  title : String
  outline : List OutlineEntry
deriving DecidableEq

/-! ## Ordering relations used by the sorts of the source

Python list.sort with key (h.page, h.level) orders by page, ties broken by
the lexicographic order on the level label; with key font_size and
reverse=True it orders by descending size. -/

/-- Tuple order on (page, level) used by the final sorts: ascending page,
ties broken by the Python lexicographic order on the level label. -/
def pageLevelLe (a b : Heading) : Prop :=
  a.page < b.page ∨ (a.page = b.page ∧ strLe a.level b.level = true)

instance : DecidableRel pageLevelLe := fun a b => by
  unfold pageLevelLe; infer_instance

instance : IsTotal Heading pageLevelLe := by
  constructor
  intro a b
  rcases Nat.lt_trichotomy a.page b.page with h | h | h
  · exact Or.inl (Or.inl h)
  · rcases listLexLe_total_pf a.level.data b.level.data with hl | hl
    · exact Or.inl (Or.inr ⟨h, hl⟩)
    · exact Or.inr (Or.inr ⟨h.symm, hl⟩)
  · exact Or.inr (Or.inl h)

instance : IsTrans Heading pageLevelLe := by
  constructor
  intro a b c hab hbc
  rcases hab with h1 | ⟨e1, l1⟩
  · rcases hbc with h2 | ⟨e2, _⟩
    · exact Or.inl (h1.trans h2)
    · exact Or.inl (e2 ▸ h1)
  · rcases hbc with h2 | ⟨e2, l2⟩
    · exact Or.inl (e1 ▸ h2)
    · exact Or.inr ⟨e1.trans e2, listLexLe_trans_pf _ _ _ l1 l2⟩

/-- Descending order on font size used by the simple classifier. -/
def fsGe (a b : Heading) : Prop := b.font_size ≤ a.font_size

instance : DecidableRel fsGe := fun a b => by
  unfold fsGe; infer_instance

instance : IsTotal Heading fsGe := ⟨fun a b => le_total b.font_size a.font_size⟩

instance : IsTrans Heading fsGe := ⟨fun _ _ _ hab hbc => le_trans hbc hab⟩

/-- Descending order on cluster mean used when ranking clusters. -/
def meanGe (a b : Nat × ℚ) : Prop := b.2 ≤ a.2

instance : DecidableRel meanGe := fun a b => by
  unfold meanGe; infer_instance

instance : IsTotal (Nat × ℚ) meanGe := ⟨fun a b => le_total b.2 a.2⟩

instance : IsTrans (Nat × ℚ) meanGe := ⟨fun _ _ _ hab hbc => le_trans hbc hab⟩

/-! ## Configuration tables of the source -/

/-- The heading keyword set (set iteration is modelled as a list; only the
disjunction of membership tests is observable). -/
def headingKeywords : List String :=
  ["introduction", "conclusion", "abstract", "summary", "references",
   "bibliography", "appendix", "methodology", "results", "discussion",
   "background", "related work", "future work", "limitations",
   "acknowledgements", "table of contents", "revision history",
   "executive summary", "overview", "preface", "foreword",
   "pathway options", "hope to see you there", "ontario", "digital library"]

/-- The literal skip patterns of the header/footer filter (the two
patterns with a digit class are handled by dedicated matchers). -/
def skipLiterals : List String :=
  ["copyright", "all rights reserved", "this document was produced",
   "working group", "authors:", "internal reviewers:",
   "external reviewers:", "identifier reference",
   "the following registered trademarks", "designation",
   "date of entering", "whether permanent or temporary",
   "whether wife / husband", "single rail fare",
   "amount of advance required", "signature of government servant"]

/-- Does the lowered stripped heading text match one of the boilerplate
skip patterns (re.search over each pattern of the list in the source). -/
def shouldSkip (t : List Char) : Bool :=
  searchAnywhere matchPageOf t || searchAnywhere matchVersionNum t ||
    skipLiterals.any (fun s => pyIn s t)

/-- The exact-match H1 section names of the simple classifier (most carry
a trailing space in the source and, the compared text being stripped,
can never match; they are kept verbatim). -/
def canonH1List : List String :=
  ["introduction", "conclusion", "references ", "abstract ",
   "summary ", "executive summary ", "acknowledgements ",
   "table of contents ", "revision history ", "pathway options ",
   "hope to see you there ", "ontario" ++ apoS ++ "s digital library "]

/-- The canonical main-section names of the technical-document branch. -/
def mainHeadingsList : List String :=
  ["revision history", "table of contents", "acknowledgements",
   "introduction to the foundation level extensions",
   "introduction to foundation level agile tester extension",
   "overview of the foundation level extension",
   "references"]

/-- The hardcoded (text, page, level) table of the rfp-document branch,
transcribed verbatim from the source. -/
def rfpRaw : List (String × Nat × String) :=
  [("ontario" ++ apoS ++ "s digital library", 1, "H1"),
   ("a critical component for implementing ontario" ++ apoS ++
      "s road map to prosperity strategy", 1, "H1"),
   ("summary", 1, "H2"),
   ("timeline:", 1, "H3"),
   ("background", 2, "H2"),
   ("equitable access for all ontarians:", 3, "H3"),
   ("shared decision-making and accountability:", 3, "H3"),
   ("shared governance structure:", 3, "H3"),
   ("shared funding:", 3, "H3"),
   ("local points of entry:", 4, "H3"),
   ("access:", 4, "H3"),
   ("guidance and advice:", 4, "H3"),
   ("training:", 4, "H3"),
   ("provincial purchasing & licensing:", 4, "H3"),
   ("technological support:", 4, "H3"),
   ("what could the odl really mean?", 4, "H3"),
   ("for each ontario citizen it could mean:", 4, "H4"),
   ("for each ontario student it could mean:", 4, "H4"),
   ("for each ontario library it could mean:", 5, "H4"),
   ("for the ontario government it could mean:", 5, "H4"),
   ("the business plan to be developed", 5, "H2"),
   ("milestones", 6, "H3"),
   ("approach and specific proposal requirements", 6, "H2"),
   ("evaluation and awarding of contract", 7, "H2"),
   ("appendix a: odl envisioned phases & funding", 8, "H2"),
   ("phase i: business planning", 8, "H3"),
   ("phase ii: implementing and transitioning", 8, "H3"),
   ("phase iii: operating and growing the odl", 8, "H3"),
   ("appendix b: odl steering committee terms of reference", 10, "H2"),
   ("1. preamble", 10, "H3"),
   ("2. terms of reference", 10, "H3"),
   ("3. membership", 10, "H3"),
   ("4. appointment criteria and process", 11, "H3"),
   ("5. term", 11, "H3"),
   ("6. chair", 11, "H3"),
   ("7. meetings", 11, "H3"),
   ("8. lines of accountability and communication", 11, "H3"),
   ("9. financial and administrative policies", 12, "H3"),
   ("appendix c: odl" ++ apoS ++ "s envisioned electronic resources", 13, "H2")]

/-- The fixed heading list emitted by the rfp-document branch: each raw
text gets one appended space, font size 12, font name Arial. -/
def rfpFixedHeadings : List Heading :=
  rfpRaw.map (fun p =>
    { text := p.1 ++ " ", level := p.2.2, page := p.2.1,
      font_size := 12, font_name := "Arial", bbox := (0, 0, 0, 0) })

/-! ## Heading detection -/

/-- The per-line heading predicate, branch for branch in source order:
the eight compiled patterns, the keyword set, the generic numbered
section and subsection tests, the capitalised 2-to-20-token test, the
all-uppercase test, and the application-form extra rule. -/
def isPotentialHeadingLine (t : List Char) (dt : String) : Bool :=
  if t.length < 3 then false
  else if matchAllCapsFull t then true
  else if matchNumDotWs Char.isUpper t then true
  else if matchTwoLevelWsUpper t then true
  else if matchThreeLevelWsUpper t then true
  else if matchTitleCase t then true
  else if matchWordThen "Chapter" Char.isDigit t then true
  else if matchWordThen "Section" Char.isDigit t then true
  else if matchWordThen "Appendix" Char.isUpper t then true
  else if headingKeywords.any (fun k => pyIn k (pyLower t)) then true
  else if matchNumDot Char.isUpper t then true
  else if matchTwoLevel t then true
  else if (match t with | c :: _ => c.isUpper | [] => false)
            && 2 ≤ (pyWords t).length && (pyWords t).length ≤ 20 then true
  else if pyIsUpper t && 3 < t.length then true
  else if dt = "application form" && matchNumDotWs Char.isUpper t
            && 3 < (pyWords t).length then true
  else false

/-- Build the heading record for one accepted line: font data comes from
the page words whose text occurs inside the line, the text is cut at
leader dots, stripped, and given one trailing space. -/
def lineToHeading (pageNum : Nat) (pageWords : List Word) (t : List Char) : Heading :=
  let matching := pageWords.filter (fun w => listInfixOf w.text.data t)
  { text := String.mk (pyStrip (dropDoubleDots t) ++ [' ']),
    level := "",
    page := pageNum,
    font_size := ((matching.map (fun w => w.size)).max?).getD 0,
    font_name := ((matching.head?).map (fun w => w.fontname)).getD "",
    bbox := (0, 0, 0, 0) }

/-- The accepted heading candidates of one page, in line order (each
line is stripped before the length and pattern tests). -/
def pageCandidates (dt : String) (pageNum : Nat) (page : Page) : List Heading :=
  (splitOnNl page.text.data).filterMap (fun line =>
    if (pyStrip line).length < 3 then none
    else if 200 < (pyStrip line).length then none
    else if isPotentialHeadingLine (pyStrip line) dt then
      some (lineToHeading pageNum page.words (pyStrip line))
    else none)

/-- Deduplication on (text, page) keeping the first occurrence; the
second argument is the set of keys already seen. -/
def dedupHeadings : List Heading → List (String × Nat) → List Heading
  | [], _ => []
  | h :: t, seen =>
    if (h.text, h.page) ∈ seen then dedupHeadings t seen
    else h :: dedupHeadings t ((h.text, h.page) :: seen)

/-- Collect, deduplicate and boilerplate-filter the headings of all
pages (pages are numbered from 1). -/
def extractHeadings (pdf : PDFDoc) (dt : String) : List Heading :=
  (dedupHeadings ((pdf.pages.enum).flatMap (fun p => pageCandidates dt (p.1 + 1) p.2)) []).filter
    (fun h => !(shouldSkip (pyStrip (pyLower h.text.data))))

/-! ## Level classification -/

/-- The level labels, largest cluster first. -/
def levelNames : List String := ["H1", "H2", "H3", "H4"]

/-- Content-based level of one heading (input already lowered and
stripped), following the if/elif cascade of the simple classifier.  The
two-level test precedes the three-level test, exactly as in the source. -/
def simpleLevel (t : List Char) : String :=
  if matchNumDot Char.isLower t
       || canonH1List.any (fun s => s.data = t)
       || matchWordThen "chapter" Char.isDigit t
       || matchWordThen "section" Char.isDigit t
       || matchWordThen "appendix" Char.isLower t then "H1"
  else if matchTwoLevel t then "H2"
  else if matchThreeLevel t then "H3"
  else "H4"

/-- The simple (content-based) classifier: sort by descending font size,
assign levels from content, re-sort by (page, level). -/
def simpleClassification (headings : List Heading) (dt : String) : List Heading :=
  if headings.isEmpty then []
  else
    List.insertionSort pageLevelLe
      ((List.insertionSort fsGe headings).map (fun h =>
        { h with level := simpleLevel (pyLower (pyStrip h.text.data)) }))

/-- Mean font size of the cluster labelled i (np.mean over the selected
sizes; an empty selection would be NaN in Python and is 0 here, see the
header note). -/
def clusterMean (fontSizes : List ℚ) (labels : List Nat) (i : Nat) : ℚ :=
  let sel := ((fontSizes.zip labels).filter (fun p => p.2 = i)).map (fun p => p.1)
  sel.sum / sel.length

/-- Rank the clusters by descending mean and map rank 0,1,2,3 to
H1,H2,H3,H4; a rank beyond the table maps to the last name H4. -/
def clusterToLevel (cms : List (Nat × ℚ)) : List (Nat × String) :=
  ((List.insertionSort meanGe cms).enum).map
    (fun q => (q.2.1, levelNames.getD q.1 "H4"))

/-- The level the cluster-to-level table gives to label c (the dict
lookup of the source; the guard of `clusterClassify` ensures the lookup
always succeeds, so the default is never consulted there). -/
def assignLevelFun (fontSizes : List ℚ) (labels : List Nat) (n : Nat) (c : Nat) : String :=
  let cms := (List.range n).map (fun i => (i, clusterMean fontSizes labels i))
  (List.lookup c (clusterToLevel cms)).getD "H4"

/-- Assign each heading the level of its cluster (positional zip of the
heading list with the label list, as the enumerate loop does). -/
def assignLevels (hs : List Heading) (labels : List Nat) (n : Nat) : List Heading :=
  List.zipWith
    (fun h c => { h with level := assignLevelFun (hs.map (fun x => x.font_size)) labels n c })
    hs labels

/-- The font-size list of a heading list. -/
def fontSizesOf (hs : List Heading) : List ℚ :=
  hs.map (fun h => h.font_size)

/-- The cluster count: min of 4 and the number of distinct font sizes. -/
def nClusters (hs : List Heading) : Nat :=
  min 4 (fontSizesOf hs).dedup.length

/-- A labelling CPython would accept without raising: the right length
and every label inside range(n). -/
def labelsValid (labels : List Nat) (len n : Nat) : Prop :=
  labels.length = len ∧ ∀ c ∈ labels, c < n

instance (labels : List Nat) (len n : Nat) : Decidable (labelsValid labels len n) := by
  unfold labelsValid; infer_instance

/-- The clustering path: obtain a labelling, check its validity, assign
levels and re-sort; an invalid labelling falls back to the simple
classifier exactly as the except-branch does. -/
def clusterClassify (km : Nat → List ℚ → List Nat)
    (hs : List Heading) (dt : String) : List Heading :=
  if labelsValid (km (nClusters hs) (fontSizesOf hs)) hs.length (nClusters hs) then
    List.insertionSort pageLevelLe
      (assignLevels hs (km (nClusters hs) (fontSizesOf hs)) (nClusters hs))
  else simpleClassification hs dt

/-- The level classifier: fewer than two distinct font sizes (or a
degenerate cluster count) falls back to the simple classifier, else the
clustering path runs. -/
def classifyHeadings (km : Nat → List ℚ → List Nat)
    (headings : List Heading) (dt : String) : List Heading :=
  if headings.isEmpty then []
  else if (fontSizesOf headings).dedup.length < 2 then
    simpleClassification headings dt
  else if nClusters headings < 2 then
    simpleClassification headings dt
  else clusterClassify km headings dt

/-! ## Type-specific post-processing -/

/-- Does the lowered stripped text contain one of the canonical
main-section names. -/
def mainHit (h : Heading) : Bool :=
  mainHeadingsList.any (fun mh => pyIn mh (pyLower (pyStrip h.text.data)))

/-- The hardcoded page for a matched main heading (the if/elif chain of
the technical branch); the default is returned when no chain arm fires. -/
def techMainPage (t : List Char) (dflt : Nat) : Nat :=
  if pyIn "revision history" t then 2
  else if pyIn "table of contents" t then 3
  else if pyIn "acknowledgements" t then 4
  else if pyIn "introduction to the foundation level extensions" t then 5
  else if pyIn "introduction to foundation level agile tester extension" t then 6
  else if pyIn "overview of the foundation level extension" t then 9
  else if pyIn "references" t then 11
  else dflt

/-- The hardcoded page for a numbered subsection (substring tests on the
original heading text, as in the source). -/
def techSubPage (t : List Char) (dflt : Nat) : Nat :=
  if pyIn "2.1" t then 6
  else if pyIn "2.2" t then 6
  else if pyIn "2.3" t then 6
  else if pyIn "2.4" t then 7
  else if pyIn "2.5" t then 7
  else if pyIn "2.6" t then 8
  else if pyIn "3.1" t then 9
  else if pyIn "3.2" t then 9
  else if pyIn "4.1" t then 11
  else if pyIn "4.2" t then 11
  else dflt

/-- The final page of a heading after the technical branch has run both
mutation sites (the main-heading chain first, the subsection chain
second, each on the shared heading object). -/
def techFinalPage (h : Heading) : Nat :=
  let p1 := if mainHit h then techMainPage (pyLower (pyStrip h.text.data)) h.page
            else h.page
  if matchTwoLevel h.text.data then techSubPage h.text.data p1 else p1

/-- The heading as it stands after the technical branch processed it. -/
def techResult (h : Heading) : Heading :=
  { h with page := techFinalPage h }

/-- What the technical branch appends for one input heading.  CPython
appends the same (mutable) heading object once per firing test, so both
appended entries show the final page value; a heading firing both tests
therefore appears twice. -/
def techEmit (h : Heading) : List Heading :=
  (if mainHit h then [techResult h] else []) ++
    (if matchTwoLevel h.text.data then [techResult h] else [])

/-- Keep the first heading containing the cue, forced to H1 / page 0
(the invitation and educational branches). -/
def keepFirstCue (cue : String) (hs : List Heading) : List Heading :=
  match hs.find? (fun h => pyIn cue (pyLower (pyStrip h.text.data))) with
  | some h => [{ h with level := "H1", page := 0 }]
  | none => []

/-- Type-specific post-processing, branch for branch. -/
def postProcessHeadings (headings : List Heading) (dt : String) : List Heading :=
  if dt = "application form" then []
  else if dt = "invitation" then keepFirstCue "hope to see you there" headings
  else if dt = "educational" then keepFirstCue "pathway options" headings
  else if dt = "technical document" then headings.flatMap techEmit
  else if dt = "rfp document" then rfpFixedHeadings
  else headings

/-! ## Title extraction and document type detection -/

/-- Title extraction from the first page, with the font-size path, the
text-lines fallback, the cleanups, the fingerprint corrections and the
final emptiness test of the source. -/
def extractTitle (pdf : PDFDoc) : String :=
  match pdf.pages.head? with
  | none => "Unknown"
  | some first =>
    let words := first.words
    let fullText := first.text.data
    if words.isEmpty && fullText.isEmpty then "Unknown"
    else
      let raw :=
        if !words.isEmpty && words.any (fun w => 0 < w.size) then
          let largest := ((words.map (fun w => w.size)).max?).getD 0
          let titleWords :=
            ((words.take 30).filter (fun w => largest * (3 / 5) ≤ w.size)).map
              (fun w => w.text.data)
          joinWords (titleWords.take 15)
        else
          let titleLines := ((splitOnNl fullText).take 3).filterMap (fun l =>
            let s := pyStrip l
            if 3 < s.length then some s else none)
          joinWords (titleLines.take 2)
      let t1 := pyStrip (collapseWs raw)
      let t2 := stripNumberingLead t1
      let t3 := stripCapsLabel t2
      let low := pyLower t3
      let fin :=
        if pyIn "application form for grant of ltc advance" low then
          "Application form for grant of LTC advance  "
        else if pyIn "overview" low && pyIn "foundation" low then
          "Overview  Foundation Level Extensions  "
        else if pyIn "rfp" low || pyIn "request for proposal" low
                  || pyIn "ontario" low then
          "RFP:Request for Proposal To Present a Proposal for Developing the Business Plan for the Ontario Digital Library  "
        else if pyIn "parsippany" low && pyIn "stem" low then
          "Parsippany -Troy Hills STEM Pathways"
        else if pyIn "hope to see you there" low || pyIn "topjump" low then
          ""
        else String.mk (t3 ++ [' ', ' '])
      if fin.isEmpty then "Unknown" else fin

/-- Document type detection from the lowered text of the first three
pages, first match winning. -/
def detectDocumentType (pdf : PDFDoc) : String :=
  if pdf.pages.isEmpty then "unknown"
  else
    let tc := (pdf.pages.take 3).flatMap (fun p => pyLower p.text.data)
    if pyIn "hope to see you there" tc || pyIn "topjump" tc then "invitation"
    else if pyIn "rfp" tc || pyIn "request for proposal" tc then "rfp document"
    else if pyIn "ontario" tc && pyIn "digital library" tc then "rfp document"
    else if pyIn "application form" tc || pyIn "grant of ltc" tc then
      "application form"
    else if pyIn "overview" tc && pyIn "foundation level extensions" tc then
      "technical document"
    else if pyIn "parsippany" tc && pyIn "stem pathways" tc then "educational"
    else "general"

/-! ## The per-document pipeline -/

/-- Project a heading onto the output record shape. -/
def headingToEntry (h : Heading) : OutlineEntry :=
  { level := h.level, text := h.text, page := h.page }

/-- The whole pipeline behind extract_outline.  The Except input models
the document-opening boundary: the try/except of the source absorbs any
failure there and yields the default result. -/
def extractOutline (km : Nat → List ℚ → List Nat)
    (input : Except String PDFDoc) : OutlineResult :=
  match input with
  | Except.error _ => { title := "Unknown", outline := [] }
  | Except.ok pdf =>
    let title := extractTitle pdf
    let dt := detectDocumentType pdf
    let hs := extractHeadings pdf dt
    let cls := classifyHeadings km hs dt
    let fin := postProcessHeadings cls dt
    { title := title, outline := fin.map headingToEntry }

/-! ## Observation predicates and concrete inputs used by the claims -/

/-- A degenerate labelling function: every size goes to cluster 0 (used
to instantiate the labelling parameter at concrete inputs). -/
def kmZero : Nat → List ℚ → List Nat := fun _ sizes => sizes.map (fun _ => 0)

/-- The text ends with exactly one trailing space character. -/
def endsOneSpace (cs : List Char) : Bool :=
  (cs.reverse.takeWhile (fun c => c == ' ')).length == 1

/-- The text does not begin with a whitespace character. -/
def noLeadWs (cs : List Char) : Bool :=
  match cs with
  | [] => true
  | c :: _ => !wsChar c

/-- The text shape asserted by the claim: exactly one trailing space and
no leading whitespace. -/
def textOkClaimed (cs : List Char) : Bool :=
  endsOneSpace cs && noLeadWs cs

/-- The text shape the code actually guarantees: exactly one trailing
space, and no leading whitespace except for the single-space text that a
line reduced to nothing by cleaning produces. -/
def textOkActual (cs : List Char) : Bool :=
  endsOneSpace cs && (noLeadWs cs || cs == [' '])

/-- Boolean form of the (page, level) order on output records. -/
def entryLeB (a b : OutlineEntry) : Bool :=
  decide (a.page < b.page) || (decide (a.page = b.page) && strLe a.level b.level)

/-- Is the outline ordered by ascending page, ties by ascending level
label (adjacent-pair check). -/
def outlineOrderedB : List OutlineEntry → Bool
  | [] => true
  | [_] => true
  | a :: b :: t => entryLeB a b && outlineOrderedB (b :: t)

/-- A heading whose text starts with a three-level numeric prefix. -/
def h211 : Heading :=
  { text := "2.1.1 Details ", level := "", page := 1, font_size := 10,
    font_name := "", bbox := (0, 0, 0, 0) }

/-- A heading sharing (text, page) with h211 but carrying different
font metadata, so keep-first and keep-last deduplication differ on it. -/
def hDup : Heading :=
  { text := "2.1.1 Details ", level := "", page := 1, font_size := 99,
    font_name := "G", bbox := (0, 0, 0, 0) }

/-- A first page carrying the invitation cue in its leading text (no
font data, so the line-based title fallback runs). -/
def topjumpDoc : PDFDoc := ⟨[⟨"TOPJUMP party today", []⟩]⟩

/-- A one-page document whose only line is dots followed by capitals:
the line passes the isupper heading test, and the leader-dot cleanup
reduces its text to a single space. -/
def dotDoc : PDFDoc := ⟨[⟨"...ABC", []⟩]⟩

/-- A one-page document that fingerprints as an rfp document. -/
def rfpDoc : PDFDoc := ⟨[⟨"rfp", []⟩]⟩

/-- A one-page document that fingerprints as a general document. -/
def helloDoc : PDFDoc := ⟨[⟨"hello world", []⟩]⟩

/-- A concrete clustering outcome: three clusters with distinct means. -/
def cmsW : List (Nat × ℚ) := [(0, 5), (1, 10), (2, 3)]

/-- A heading that both contains a canonical main-section name and
starts with a two-level numeric prefix. -/
def hTech : Heading :=
  { text := "2.1 Introduction to the Foundation Level Extensions ",
    level := "H2", page := 1, font_size := 12, font_name := "",
    bbox := (0, 0, 0, 0) }

/-! ## Helper lemmas: shape of cleaned heading texts -/

theorem dropWhile_ws_head (l : List Char) (c : Char) (t : List Char)
    (h : l.dropWhile wsChar = c :: t) : wsChar c = false := by
  induction l with
  | nil => simp at h
  | cons a s ih =>
    rw [List.dropWhile_cons] at h
    by_cases ha : wsChar a
    · rw [if_pos ha] at h
      exact ih h
    · rw [if_neg ha] at h
      cases h
      simpa using ha

theorem dropTrailingWs_head (l : List Char) (c : Char) (t : List Char)
    (h : dropTrailingWs l = c :: t) : ∃ s, l = c :: s := by
  cases l with
  | nil => simp [dropTrailingWs] at h
  | cons a s =>
    simp only [dropTrailingWs] at h
    split_ifs at h with h1 h2 <;> cases h <;> exact ⟨s, rfl⟩

theorem dropTrailingWs_last (l : List Char) :
    ∀ c t, (dropTrailingWs l).reverse = c :: t → wsChar c = false := by
  induction l with
  | nil => intro c t h; simp [dropTrailingWs] at h
  | cons a s ih =>
    intro c t h
    simp only [dropTrailingWs] at h
    split_ifs at h with h1 h2
    · simp at h
    · simp only [List.reverse_cons, List.reverse_nil, List.nil_append] at h
      cases h
      simpa using h2
    · rw [List.reverse_cons] at h
      cases hrev : (dropTrailingWs s).reverse with
      | nil =>
        have : dropTrailingWs s = [] := List.reverse_eq_nil_iff.mp hrev
        exact absurd (by simp [this]) h1
      | cons d ds =>
        rw [hrev, List.cons_append] at h
        injection h with hdc hrest
        subst hdc
        exact ih d ds hrev

theorem pyStrip_head (l : List Char) (c : Char) (t : List Char)
    (h : pyStrip l = c :: t) : wsChar c = false := by
  obtain ⟨s, hs⟩ := dropTrailingWs_head _ _ _ h
  exact dropWhile_ws_head l c s hs

theorem pyStrip_last (l : List Char) (c : Char) (t : List Char)
    (h : (pyStrip l).reverse = c :: t) : wsChar c = false :=
  dropTrailingWs_last _ _ _ h

theorem endsOne_append_space (s : List Char)
    (hs : ∀ c t, s.reverse = c :: t → c ≠ ' ') :
    endsOneSpace (s ++ [' ']) = true := by
  unfold endsOneSpace
  rw [List.reverse_append]
  simp only [List.reverse_cons, List.reverse_nil, List.nil_append,
    List.singleton_append, List.takeWhile_cons]
  cases hrev : s.reverse with
  | nil => simp
  | cons d ds =>
    have hd : d ≠ ' ' := hs d ds hrev
    simp [List.takeWhile_cons, hd]

theorem textOkActual_strip_space (l : List Char) :
    textOkActual (pyStrip l ++ [' ']) = true := by
  cases h : pyStrip l with
  | nil => decide
  | cons c t =>
    have hc : wsChar c = false := pyStrip_head l c t h
    have hone : endsOneSpace ((c :: t) ++ [' ']) = true := by
      apply endsOne_append_space
      intro d ds hrev hdeq
      have hw := pyStrip_last l d ds (by rw [h]; exact hrev)
      subst hdeq
      simp [wsChar] at hw
    have hlead : noLeadWs ((c :: t) ++ [' ']) = true := by
      simp [noLeadWs, hc]
    unfold textOkActual
    rw [hone, hlead]
    rfl

/-! ## Helper lemmas: deduplication -/

theorem dedupHeadings_sublist :
    ∀ (hs : List Heading) (seen : List (String × Nat)),
      (dedupHeadings hs seen).Sublist hs
  | [], _ => List.Sublist.refl []
  | h :: t, seen => by
    rw [dedupHeadings]
    split_ifs with hin
    · exact (dedupHeadings_sublist t seen).cons h
    · exact (dedupHeadings_sublist t _).cons₂ h

theorem dedupHeadings_keys :
    ∀ (hs : List Heading) (seen : List (String × Nat)),
      ((dedupHeadings hs seen).map (fun h => (h.text, h.page))).Nodup ∧
        ∀ k ∈ (dedupHeadings hs seen).map (fun h => (h.text, h.page)), k ∉ seen := by
  intro hs
  induction hs with
  | nil => intro seen; simp [dedupHeadings]
  | cons h t ih =>
    intro seen
    rw [dedupHeadings]
    split_ifs with hin
    · exact ⟨(ih seen).1, (ih seen).2⟩
    · obtain ⟨ihn, ihs⟩ := ih ((h.text, h.page) :: seen)
      refine ⟨?_, ?_⟩
      · simp only [List.map_cons, List.nodup_cons]
        exact ⟨fun hmem => (ihs _ hmem) (List.mem_cons_self _ _), ihn⟩
      · intro k hk
        simp only [List.map_cons, List.mem_cons] at hk
        rcases hk with rfl | hk
        · exact hin
        · exact fun hks => (ihs k hk) (List.mem_cons_of_mem _ hks)

theorem dedupHeadings_first :
    ∀ (hs : List Heading) (seen : List (String × Nat)) (h2 : Heading),
      h2 ∈ dedupHeadings hs seen →
        (h2.text, h2.page) ∉ seen ∧
          hs.find? (fun x => decide ((x.text, x.page) = (h2.text, h2.page))) = some h2 := by
  intro hs
  induction hs with
  | nil => intro seen h2 hmem; cases hmem
  | cons a t ih =>
    intro seen h2 hmem
    rw [dedupHeadings] at hmem
    split_ifs at hmem with hin
    · obtain ⟨hnot, hfind⟩ := ih seen h2 hmem
      have hne : ¬((a.text, a.page) = (h2.text, h2.page)) := fun heq => hnot (heq ▸ hin)
      refine ⟨hnot, ?_⟩
      rw [List.find?_cons_of_neg t (by simpa using hne)]
      exact hfind
    · rcases List.mem_cons.mp hmem with rfl | hmem
      · exact ⟨hin, List.find?_cons_of_pos t (by simp)⟩
      · obtain ⟨hnot, hfind⟩ := ih ((a.text, a.page) :: seen) h2 hmem
        have hnot2 : (h2.text, h2.page) ∉ seen :=
          fun hk => hnot (List.mem_cons_of_mem _ hk)
        have hne : ¬((a.text, a.page) = (h2.text, h2.page)) :=
          fun heq => hnot (heq ▸ List.mem_cons_self _ _)
        refine ⟨hnot2, ?_⟩
        rw [List.find?_cons_of_neg t (by simpa using hne)]
        exact hfind

theorem dedupHeadings_covers :
    ∀ (hs : List Heading) (seen : List (String × Nat)) (h : Heading), h ∈ hs →
      (h.text, h.page) ∈ seen ∨
        (h.text, h.page) ∈ (dedupHeadings hs seen).map (fun x => (x.text, x.page)) := by
  intro hs
  induction hs with
  | nil => intro seen h hmem; cases hmem
  | cons a t ih =>
    intro seen h hmem
    rw [dedupHeadings]
    rcases List.mem_cons.mp hmem with rfl | hmem
    · split_ifs with hin
      · exact Or.inl hin
      · right; simp
    · split_ifs with hin
      · exact ih seen h hmem
      · rcases ih ((a.text, a.page) :: seen) h hmem with hseen | hout
        · rcases List.mem_cons.mp hseen with heq | hseen2
          · right; simp [heq]
          · exact Or.inl hseen2
        · right
          simp only [List.map_cons, List.mem_cons]
          exact Or.inr hout

/-! ## Helper lemmas: sortedness of the classifier output -/

theorem simpleClassification_sorted (hs : List Heading) (dt : String) :
    List.Sorted pageLevelLe (simpleClassification hs dt) := by
  unfold simpleClassification
  split_ifs
  · exact List.sorted_nil
  · exact List.sorted_insertionSort pageLevelLe _

theorem clusterClassify_sorted (km : Nat → List ℚ → List Nat)
    (hs : List Heading) (dt : String) :
    List.Sorted pageLevelLe (clusterClassify km hs dt) := by
  unfold clusterClassify
  split_ifs
  · exact List.sorted_insertionSort pageLevelLe _
  · exact simpleClassification_sorted hs dt

theorem classifyHeadings_sorted (km : Nat → List ℚ → List Nat)
    (hs : List Heading) (dt : String) :
    List.Sorted pageLevelLe (classifyHeadings km hs dt) := by
  unfold classifyHeadings
  split_ifs
  · exact List.sorted_nil
  · exact simpleClassification_sorted hs dt
  · exact simpleClassification_sorted hs dt
  · exact clusterClassify_sorted km hs dt

theorem keepFirstCue_sorted (cue : String) (hs : List Heading) :
    List.Sorted pageLevelLe (keepFirstCue cue hs) := by
  unfold keepFirstCue
  cases hs.find? (fun h => pyIn cue (pyLower (pyStrip h.text.data))) with
  | none => exact List.sorted_nil
  | some h => exact List.sorted_singleton _

theorem postProcessHeadings_sorted (hs : List Heading) (dt : String)
    (h1 : dt ≠ "technical document") (h2 : dt ≠ "rfp document")
    (hsort : List.Sorted pageLevelLe hs) :
    List.Sorted pageLevelLe (postProcessHeadings hs dt) := by
  unfold postProcessHeadings
  by_cases ha : dt = "application form"
  · rw [if_pos ha]
    exact List.sorted_nil
  · rw [if_neg ha]
    by_cases hb : dt = "invitation"
    · rw [if_pos hb]
      exact keepFirstCue_sorted _ hs
    · rw [if_neg hb]
      by_cases hc : dt = "educational"
      · rw [if_pos hc]
        exact keepFirstCue_sorted _ hs
      · rw [if_neg hc, if_neg h1, if_neg h2]
        exact hsort

theorem entryLeB_of_pageLevelLe (a b : Heading) (h : pageLevelLe a b) :
    entryLeB (headingToEntry a) (headingToEntry b) = true := by
  rcases h with h | ⟨h1, h2⟩
  · simp [entryLeB, headingToEntry, h]
  · simp [entryLeB, headingToEntry, h1, h2]

theorem outlineOrderedB_of_sorted :
    ∀ (l : List Heading), List.Sorted pageLevelLe l →
      outlineOrderedB (l.map headingToEntry) = true
  | [], _ => rfl
  | [_], _ => rfl
  | a :: b :: t, h => by
    have hab : pageLevelLe a b := List.rel_of_sorted_cons h b (List.mem_cons_self b t)
    have ht := outlineOrderedB_of_sorted (b :: t) h.of_cons
    simp only [List.map_cons] at ht ⊢
    rw [outlineOrderedB, entryLeB_of_pageLevelLe a b hab, ht]
    rfl

/-! ## Helper lemmas: classification and post-processing keep input texts -/

theorem zipWith_preserves_text (f : Heading → Nat → Heading)
    (hf : ∀ h c, (f h c).text = h.text) :
    ∀ (hs : List Heading) (ls : List Nat) (h2 : Heading),
      h2 ∈ List.zipWith f hs ls → ∃ h ∈ hs, h2.text = h.text
  | [], _, h2, hmem => by simp at hmem
  | _ :: _, [], h2, hmem => by simp at hmem
  | a :: t, b :: u, h2, hmem => by
    rw [List.zipWith_cons_cons] at hmem
    rcases List.mem_cons.mp hmem with rfl | hmem
    · exact ⟨a, List.mem_cons_self a t, hf a b⟩
    · obtain ⟨h, hh, he⟩ := zipWith_preserves_text f hf t u h2 hmem
      exact ⟨h, List.mem_cons_of_mem a hh, he⟩

theorem simpleClassification_text (hs : List Heading) (dt : String) (h2 : Heading)
    (hmem : h2 ∈ simpleClassification hs dt) : ∃ h ∈ hs, h2.text = h.text := by
  unfold simpleClassification at hmem
  split_ifs at hmem
  · simp at hmem
  · rw [List.mem_insertionSort, List.mem_map] at hmem
    obtain ⟨h3, hh3, he⟩ := hmem
    rw [List.mem_insertionSort] at hh3
    exact ⟨h3, hh3, by rw [← he]⟩

theorem assignLevels_text (hs : List Heading) (ls : List Nat) (n : Nat) (h2 : Heading)
    (hmem : h2 ∈ assignLevels hs ls n) : ∃ h ∈ hs, h2.text = h.text := by
  unfold assignLevels at hmem
  exact zipWith_preserves_text
    (fun h c => { h with level := assignLevelFun (hs.map (fun x => x.font_size)) ls n c })
    (fun _ _ => rfl) hs ls h2 hmem

theorem classifyHeadings_text (km : Nat → List ℚ → List Nat) (hs : List Heading)
    (dt : String) (h2 : Heading) (hmem : h2 ∈ classifyHeadings km hs dt) :
    ∃ h ∈ hs, h2.text = h.text := by
  unfold classifyHeadings at hmem
  split_ifs at hmem
  · simp at hmem
  · exact simpleClassification_text hs dt h2 hmem
  · exact simpleClassification_text hs dt h2 hmem
  · unfold clusterClassify at hmem
    split_ifs at hmem
    · rw [List.mem_insertionSort] at hmem
      exact assignLevels_text _ _ _ _ hmem
    · exact simpleClassification_text hs dt h2 hmem

theorem techEmit_eq (h h2 : Heading) (hmem : h2 ∈ techEmit h) : h2 = techResult h := by
  unfold techEmit at hmem
  rcases List.mem_append.mp hmem with hm | hm
  · split_ifs at hm
    · exact List.mem_singleton.mp hm
    · cases hm
  · split_ifs at hm
    · exact List.mem_singleton.mp hm
    · cases hm

theorem keepFirstCue_text (cue : String) (hs : List Heading) (h2 : Heading)
    (hmem : h2 ∈ keepFirstCue cue hs) : ∃ h ∈ hs, h2.text = h.text := by
  unfold keepFirstCue at hmem
  cases hfind : hs.find? (fun h => pyIn cue (pyLower (pyStrip h.text.data))) with
  | none => rw [hfind] at hmem; cases hmem
  | some h =>
    rw [hfind, List.mem_singleton] at hmem
    subst hmem
    exact ⟨h, List.mem_of_find?_eq_some hfind, rfl⟩

theorem postProcessHeadings_text (hs : List Heading) (dt : String) (h2 : Heading)
    (hmem : h2 ∈ postProcessHeadings hs dt) :
    (∃ h ∈ hs, h2.text = h.text) ∨ h2 ∈ rfpFixedHeadings := by
  unfold postProcessHeadings at hmem
  split_ifs at hmem
  · cases hmem
  · exact Or.inl (keepFirstCue_text _ _ _ hmem)
  · exact Or.inl (keepFirstCue_text _ _ _ hmem)
  · rw [List.mem_flatMap] at hmem
    obtain ⟨h, hh, hm⟩ := hmem
    exact Or.inl ⟨h, hh, by rw [techEmit_eq h h2 hm]; rfl⟩
  · exact Or.inr hmem
  · exact Or.inl ⟨h2, hmem, rfl⟩

theorem lineToHeading_textOk (pageNum : Nat) (ws : List Word) (t : List Char) :
    textOkActual (lineToHeading pageNum ws t).text.data = true :=
  textOkActual_strip_space (dropDoubleDots t)

theorem extractHeadings_text (pdf : PDFDoc) (dt : String) (h : Heading)
    (hmem : h ∈ extractHeadings pdf dt) : textOkActual h.text.data = true := by
  unfold extractHeadings at hmem
  have hded := List.mem_of_mem_filter hmem
  have hall := (dedupHeadings_sublist _ _).subset hded
  rw [List.mem_flatMap] at hall
  obtain ⟨p, hp, hcand⟩ := hall
  unfold pageCandidates at hcand
  rw [List.mem_filterMap] at hcand
  obtain ⟨line, hline, hsome⟩ := hcand
  split_ifs at hsome
  injection hsome with hsome2
  subst hsome2
  exact lineToHeading_textOk _ _ _

theorem rfpFixedHeadings_textOk : ∀ h ∈ rfpFixedHeadings, textOkActual h.text.data = true := by
  decide

/-! ## Helper lemmas: cluster ranking -/

theorem sorted_filter_gt_length (x : Nat × ℚ) :
    ∀ (s : List (Nat × ℚ)), List.Sorted meanGe s → (s.map Prod.snd).Nodup →
      ∀ (i : Nat) (hi : i < s.length), s.get ⟨i, hi⟩ = x →
        (s.filter (fun q => decide (x.2 < q.2))).length = i := by
  intro s
  induction s with
  | nil => intro _ _ i hi; exact absurd hi (Nat.not_lt_zero i)
  | cons a t ih =>
    intro hsort hnodup i hi hget
    simp only [List.map_cons, List.nodup_cons] at hnodup
    match i with
    | 0 =>
      have hxa : x = a := by simpa using hget.symm
      subst hxa
      rw [List.filter_cons]
      have hself : decide (x.2 < x.2) = false := by simp
      rw [hself]
      have hnil : t.filter (fun q => decide (x.2 < q.2)) = [] := by
        rw [List.filter_eq_nil]
        intro q hq
        have hle : q.2 ≤ x.2 := List.rel_of_sorted_cons hsort q hq
        simp [not_lt.mpr hle]
      simp [hnil]
    | Nat.succ j =>
      have hj : j < t.length := by
        have := hi
        simp only [List.length_cons] at this
        omega
      have hgt : t.get ⟨j, hj⟩ = x := hget
      have hx : x ∈ t := by rw [← hgt]; exact t.get_mem j hj
      have hlt : x.2 < a.2 := by
        have hle : x.2 ≤ a.2 := List.rel_of_sorted_cons hsort x hx
        have hne : x.2 ≠ a.2 := by
          intro heq
          exact hnodup.1 (heq ▸ List.mem_map_of_mem Prod.snd hx)
        exact lt_of_le_of_ne hle hne
      rw [List.filter_cons]
      have ha : decide (x.2 < a.2) = true := by simpa using hlt
      rw [ha]
      simp only [if_true, List.length_cons]
      rw [ih hsort.of_cons hnodup.2 j hj hgt]

theorem lookup_enumFrom_map (f : Nat → String) :
    ∀ (s : List (Nat × ℚ)) (n : Nat), (s.map Prod.fst).Nodup →
      ∀ (i : Nat) (hi : i < s.length),
        List.lookup (s.get ⟨i, hi⟩).1 ((s.enumFrom n).map (fun q => (q.2.1, f q.1))) =
          some (f (n + i)) := by
  intro s
  induction s with
  | nil => intro n _ i hi; exact absurd hi (Nat.not_lt_zero i)
  | cons a t ih =>
    intro n hnodup i hi
    simp only [List.map_cons, List.nodup_cons] at hnodup
    match i with
    | 0 =>
      show List.lookup a.1 ((a.1, f n) :: (t.enumFrom (n + 1)).map (fun q => (q.2.1, f q.1))) =
        some (f (n + 0))
      rw [List.lookup_cons]
      simp
    | Nat.succ j =>
      have hj : j < t.length := by
        have := hi
        simp only [List.length_cons] at this
        omega
      have hkey : (t.get ⟨j, hj⟩).1 ≠ a.1 := by
        intro heq
        exact hnodup.1 (heq ▸ List.mem_map_of_mem Prod.fst (t.get_mem j hj))
      show List.lookup (t.get ⟨j, hj⟩).1
          ((a.1, f n) :: (t.enumFrom (n + 1)).map (fun q => (q.2.1, f q.1))) =
        some (f (n + (j + 1)))
      rw [List.lookup_cons]
      have hbeq : ((t.get ⟨j, hj⟩).1 == a.1) = false := by
        simpa using hkey
      rw [hbeq]
      show List.lookup (t.get ⟨j, hj⟩).1
          ((t.enumFrom (n + 1)).map (fun q => (q.2.1, f q.1))) =
        some (f (n + (j + 1)))
      rw [ih (n + 1) hnodup.2 j hj]
      have harith : n + 1 + j = n + (j + 1) := by omega
      rw [harith]

/-! ## Helper lemmas: double append of the technical branch -/

theorem techEmit_double (h : Heading) (hmain : mainHit h = true)
    (hnum : matchTwoLevel h.text.data = true) :
    techEmit h = [techResult h, techResult h] := by
  unfold techEmit
  rw [hmain, hnum]
  rfl

theorem count_flatMap_two (hs : List Heading) (h : Heading) (hmem : h ∈ hs)
    (hemit : techEmit h = [techResult h, techResult h]) :
    2 ≤ (hs.flatMap techEmit).count (techResult h) := by
  induction hs with
  | nil => cases hmem
  | cons a t ih =>
    rw [List.flatMap_cons, List.count_append]
    rcases List.mem_cons.mp hmem with rfl | hmem
    · have h2 : (techEmit h).count (techResult h) = 2 := by
        rw [hemit]
        simp [List.count_cons]
      omega
    · have := ih hmem
      omega

/-! ## Claim theorems -/

/-- Claim C1, counterexample: the rfp-document branch does not return 37
entries; its hardcoded table has 39 of them, so the claim is false as
stated even on the empty input. -/
theorem rfp_postprocess_not_37 :
    (postProcessHeadings [] "rfp document").length ≠ 37 := by
  decide

/-- Claim C1 (amended): for every input heading list, the rfp-document
branch discards the input entirely and returns the same fixed canonical
sequence of exactly 39 (text, page, level) entries, independent of the
classified input. -/
theorem rfp_postprocess_fixed_39 (hs : List Heading) :
    postProcessHeadings hs "rfp document" = rfpFixedHeadings ∧
      rfpFixedHeadings.length = 39 :=
  ⟨rfl, by decide⟩

/-- Claim C2, evaluation at the failing input: a heading whose text
starts with the three-level prefix 2.1.1 is assigned H2, not H3, because
the two-level elif precedes and subsumes the three-level test (the H3
branch of the simple classifier is unreachable). -/
theorem simple_classification_three_level_is_h2 :
    (simpleClassification [h211] "general").map (fun h => h.level) = ["H2"] := by
  decide

/-- Claim C3, counterexample: on a document fingerprinted as an rfp
document the pipeline returns the hardcoded list, which is not sorted by
(page, level): on page 5 an H4 entry precedes an H2 entry. -/
theorem rfp_outline_not_sorted :
    outlineOrderedB (extractOutline kmZero (Except.ok rfpDoc)).outline = false := by
  decide

/-- Claim C3 (amended): for every labelling function and document whose
detected type is neither technical document nor rfp document, the final
outline is sorted by ascending page with ties broken by the level label;
the two override branches are the only ones that can break the order. -/
theorem outline_sorted_outside_override_branches (km : Nat → List ℚ → List Nat)
    (pdf : PDFDoc)
    (h1 : detectDocumentType pdf ≠ "technical document")
    (h2 : detectDocumentType pdf ≠ "rfp document") :
    outlineOrderedB (extractOutline km (Except.ok pdf)).outline = true := by
  have hsorted := postProcessHeadings_sorted
    (classifyHeadings km (extractHeadings pdf (detectDocumentType pdf)) (detectDocumentType pdf))
    (detectDocumentType pdf) h1 h2
    (classifyHeadings_sorted km (extractHeadings pdf (detectDocumentType pdf))
      (detectDocumentType pdf))
  have houtline : (extractOutline km (Except.ok pdf)).outline =
      (postProcessHeadings
        (classifyHeadings km (extractHeadings pdf (detectDocumentType pdf))
          (detectDocumentType pdf))
        (detectDocumentType pdf)).map headingToEntry := rfl
  rw [houtline]
  exact outlineOrderedB_of_sorted _ hsorted

/-- Witness for the amended claim C3 at a concrete general document. -/
theorem outline_sorted_outside_override_branches_witness :
    (detectDocumentType helloDoc ≠ "technical document" ∧
      detectDocumentType helloDoc ≠ "rfp document") ∧
    outlineOrderedB (extractOutline kmZero (Except.ok helloDoc)).outline = true :=
  ⟨⟨by decide, by decide⟩,
    outline_sorted_outside_override_branches kmZero helloDoc (by decide) (by decide)⟩

/-- Claim C4, evaluation at the failing input: on a first page whose
largest-font text is TOPJUMP (an invitation cue), the title extractor
deliberately empties the title but then returns Unknown, because the
final emptiness test treats the emptied title as missing text. -/
theorem title_invitation_cue_returns_unknown :
    extractTitle topjumpDoc = "Unknown" := by
  decide

/-- Claim C5: for every clustering outcome with distinct cluster ids and
pairwise distinct means, each cluster is mapped to the level name at its
rank, the rank being the number of clusters with strictly greater mean:
rank 0 (the largest mean) gives H1, ranks 1, 2, 3 give H2, H3, H4, and
any rank beyond the table also gives H4 (the getD default is the last
level name). -/
theorem cluster_rank_maps_to_level (cms : List (Nat × ℚ))
    (hkeys : (cms.map Prod.fst).Nodup) (hmeans : (cms.map Prod.snd).Nodup) :
    ∀ p ∈ cms,
      List.lookup p.1 (clusterToLevel cms) =
        some (levelNames.getD ((cms.filter (fun q => decide (p.2 < q.2))).length) "H4") := by
  intro p hp
  have hperm : (List.insertionSort meanGe cms).Perm cms := List.perm_insertionSort meanGe cms
  have hsort : List.Sorted meanGe (List.insertionSort meanGe cms) :=
    List.sorted_insertionSort meanGe cms
  have hmeansS : ((List.insertionSort meanGe cms).map Prod.snd).Nodup :=
    ((hperm.map Prod.snd).nodup_iff).mpr hmeans
  have hkeysS : ((List.insertionSort meanGe cms).map Prod.fst).Nodup :=
    ((hperm.map Prod.fst).nodup_iff).mpr hkeys
  have hpS : p ∈ List.insertionSort meanGe cms := hperm.mem_iff.mpr hp
  obtain ⟨⟨i, hi⟩, hget⟩ := List.mem_iff_get.mp hpS
  have hfltS : ((List.insertionSort meanGe cms).filter (fun q => decide (p.2 < q.2))).length = i :=
    sorted_filter_gt_length p _ hsort hmeansS i hi hget
  have hfltC : (cms.filter (fun q => decide (p.2 < q.2))).length = i := by
    rw [← hfltS]
    exact (hperm.filter _).length_eq.symm
  have hlook := lookup_enumFrom_map (fun k => levelNames.getD k "H4")
    (List.insertionSort meanGe cms) 0 hkeysS i hi
  rw [hget] at hlook
  unfold clusterToLevel
  rw [hfltC]
  have henum : (List.insertionSort meanGe cms).enum =
      (List.insertionSort meanGe cms).enumFrom 0 := rfl
  rw [henum]
  simpa using hlook

/-- Witness for claim C5 at a concrete three-cluster outcome: the
cluster with mean 10 (the largest) is looked up to H1. -/
theorem cluster_rank_maps_to_level_witness :
    ((cmsW.map Prod.fst).Nodup ∧ (cmsW.map Prod.snd).Nodup ∧
      ((1 : Nat), (10 : ℚ)) ∈ cmsW) ∧
    List.lookup ((1 : Nat), (10 : ℚ)).1 (clusterToLevel cmsW) =
      some (levelNames.getD
        ((cmsW.filter (fun q => decide (((1 : Nat), (10 : ℚ)).2 < q.2))).length) "H4") :=
  ⟨⟨by decide, by decide, by decide⟩,
    cluster_rank_maps_to_level cmsW (by decide) (by decide) ((1 : Nat), (10 : ℚ)) (by decide)⟩

/-- Claim C6: the level classifier is deterministic; the only channel by
which the clustering library enters is the labelling function, and two
runs whose labelling functions agree on every input (as the fixed seed
guarantees) produce identical level assignments on identical input. -/
theorem classify_headings_deterministic (km1 km2 : Nat → List ℚ → List Nat)
    (hs : List Heading) (dt : String) (h : ∀ n xs, km1 n xs = km2 n xs) :
    classifyHeadings km1 hs dt = classifyHeadings km2 hs dt := by
  have hk : km1 = km2 := funext fun n => funext fun xs => h n xs
  rw [hk]

/-- Witness for claim C6 at a concrete labelling function and input. -/
theorem classify_headings_deterministic_witness :
    (∀ n xs, kmZero n xs = kmZero n xs) ∧
      classifyHeadings kmZero [h211] "general" = classifyHeadings kmZero [h211] "general" :=
  ⟨fun _ _ => rfl,
    classify_headings_deterministic kmZero kmZero [h211] "general" (fun _ _ => rfl)⟩

/-- Claim C7: deduplication collapses any two headings with identical
(text, page) to a single entry — the kept keys are pairwise distinct,
every input key survives — the output is a sublist of the input, so the
relative order of the input is preserved, and each kept entry is the
first element of the input carrying its key (keep-first semantics: a
later same-key heading, even one with different font metadata, is the
one dropped). -/
theorem dedup_headings_spec (hs : List Heading) :
    ((dedupHeadings hs []).map (fun h => (h.text, h.page))).Nodup ∧
      (dedupHeadings hs []).Sublist hs ∧
      (∀ h ∈ hs, (h.text, h.page) ∈ (dedupHeadings hs []).map (fun x => (x.text, x.page))) ∧
      ∀ h2 ∈ dedupHeadings hs [],
        hs.find? (fun x => decide ((x.text, x.page) = (h2.text, h2.page))) = some h2 := by
  refine ⟨(dedupHeadings_keys hs []).1, dedupHeadings_sublist hs [], ?_, ?_⟩
  · intro h hmem
    rcases dedupHeadings_covers hs [] h hmem with habs | hok
    · cases habs
    · exact hok
  · intro h2 hmem
    exact (dedupHeadings_first hs [] h2 hmem).2

/-- Witness for claim C7 at a concrete input whose first and third
headings share a key but differ in font metadata: the output keeps the
first of them, which keep-last deduplication would not. -/
theorem dedup_headings_spec_witness :
    dedupHeadings [h211, hTech, hDup] [] = [h211, hTech] ∧
      (((dedupHeadings [h211, hTech, hDup] []).map (fun h => (h.text, h.page))).Nodup ∧
        (dedupHeadings [h211, hTech, hDup] []).Sublist [h211, hTech, hDup] ∧
        (∀ h ∈ [h211, hTech, hDup],
          (h.text, h.page) ∈
            (dedupHeadings [h211, hTech, hDup] []).map (fun x => (x.text, x.page))) ∧
        ∀ h2 ∈ dedupHeadings [h211, hTech, hDup] [],
          [h211, hTech, hDup].find?
            (fun x => decide ((x.text, x.page) = (h2.text, h2.page))) = some h2) :=
  ⟨by decide, dedup_headings_spec [h211, hTech, hDup]⟩

/-- Claim C8: when the document cannot be opened or parsed (the failure
boundary modelled by the Except input) the pipeline fails closed and
returns the default result with title Unknown and an empty outline,
for every error and every labelling function. -/
theorem extract_outline_fails_closed (km : Nat → List ℚ → List Nat) (e : String) :
    extractOutline km (Except.error e) = { title := "Unknown", outline := [] } :=
  rfl

/-- Claim C9: in the technical-document branch, a heading whose lowered
stripped text contains a canonical main-section name and whose text
starts with a two-level numeric prefix is appended once by each of the
two matches, so its (shared, finally-mutated) record occurs at least
twice in the output. -/
theorem technical_double_append (hs : List Heading) (h : Heading) (hmem : h ∈ hs)
    (hmain : mainHit h = true) (hnum : matchTwoLevel h.text.data = true) :
    2 ≤ (postProcessHeadings hs "technical document").count (techResult h) := by
  have hpp : postProcessHeadings hs "technical document" = hs.flatMap techEmit := rfl
  rw [hpp]
  exact count_flatMap_two hs h hmem (techEmit_double h hmain hnum)

set_option maxRecDepth 4000 in
/-- Witness for claim C9 at a concrete heading firing both matches. -/
theorem technical_double_append_witness :
    (hTech ∈ [hTech] ∧ mainHit hTech = true ∧ matchTwoLevel hTech.text.data = true) ∧
      2 ≤ (postProcessHeadings [hTech] "technical document").count (techResult hTech) :=
  ⟨⟨by decide, by decide, by decide⟩,
    technical_double_append [hTech] hTech (by decide) (by decide) (by decide)⟩

/-- Claim C10, counterexample: a line of leader dots followed by
capitals passes the isupper heading test, the dot cleanup empties it,
and the final outline then carries the single-space text, which has
leading whitespace; the claimed shape fails on this pipeline run. -/
theorem outline_text_leading_space_counterexample :
    (extractOutline kmZero (Except.ok dotDoc)).outline.all
      (fun e => textOkClaimed e.text.data) = false := by
  decide

/-- Claim C10 (amended): every heading text in the final outline, under
every document-type branch including the hardcoded rfp substitution,
ends with exactly one trailing space, and has no leading whitespace
except when the cleaned line text was empty, in which case the heading
text is exactly the single-space string. -/
theorem outline_texts_trailing_space (km : Nat → List ℚ → List Nat) (pdf : PDFDoc) :
    (extractOutline km (Except.ok pdf)).outline.all
      (fun e => textOkActual e.text.data) = true := by
  rw [List.all_eq_true]
  intro e he
  have houtline : (extractOutline km (Except.ok pdf)).outline =
      (postProcessHeadings
        (classifyHeadings km (extractHeadings pdf (detectDocumentType pdf))
          (detectDocumentType pdf))
        (detectDocumentType pdf)).map headingToEntry := rfl
  rw [houtline] at he
  rw [List.mem_map] at he
  obtain ⟨h2, hmem, hePr⟩ := he
  rcases postProcessHeadings_text _ _ _ hmem with ⟨h3, hmem3, htext⟩ | hrfp
  · obtain ⟨h4, hmem4, htext4⟩ := classifyHeadings_text _ _ _ _ hmem3
    have hok := extractHeadings_text pdf (detectDocumentType pdf) h4 hmem4
    rw [← hePr]
    show textOkActual h2.text.data = true
    rw [htext, htext4]
    exact hok
  · have hok := rfpFixedHeadings_textOk h2 hrfp
    rw [← hePr]
    exact hok
